import Mathlib

/-!
Verification of the `manifold-fillet` geometry pipeline.

This file gives a shallow embedding of the repository's core:
`src/edgeSelection.ts` (edge extraction with dihedral angles, point- and
angle-based edge selection), `src/fillet.ts` (the fillet orchestrator and its
wedge-minus-tube cutting-tool builder), and `src/pipeAlongPath.ts` (the
sphere-hull tube builder).

Modelling conventions:
* JavaScript floating-point numbers are idealised as elements of a linear
  ordered field `α` (instantiated with `ℚ` for executable instances and
  with `ℝ` for the transcendental facts).
* The transcendental primitives `Math.sqrt`, `Math.acos` and `Math.PI` are
  abstracted into a `RealOps` record.  The combinatorial behaviour of the
  pipeline (which edges are extracted, which tools are subtracted) does not
  depend on their values; the real-number instantiation `realOps` is used
  where the values matter (dihedral-angle bounds).
* `pointToSegmentDistance` in the source ends with `Math.sqrt`; all of its
  uses are order comparisons, and `Real.sqrt` is strictly monotone on
  nonnegative inputs, so the embedding `pointToSegmentDistanceSq` keeps the
  exact squared distance and every comparison is performed on squares
  (`dist <= maxDist` becomes `0 ≤ maxDist ∧ distSq ≤ maxDist ^ 2`).
* The external Manifold CSG kernel (sphere, hull, subtract, union, volume,
  mesh accessor) is out of scope per the spec; it is abstracted as a
  `Kernel` record of uninterpreted operations on an abstract solid type.
* A JavaScript `throw` is modelled with `Except String`; `console.warn` and
  `console.log` have no effect on the returned value and are dropped.
-/

/-- Triple of scalars modelling a JS `[number, number, number]`. -/
abbrev Vec3 (α : Type) := α × α × α

/-- Componentwise difference `b - a` of two 3-vectors. -/
def sub3 {α : Type} [LinearOrderedField α] (b a : Vec3 α) : Vec3 α :=
  (b.1 - a.1, b.2.1 - a.2.1, b.2.2 - a.2.2)

/-- Dot product of two 3-vectors. -/
def dot3 {α : Type} [LinearOrderedField α] (a b : Vec3 α) : α :=
  a.1 * b.1 + a.2.1 * b.2.1 + a.2.2 * b.2.2

/-- Cross product of two 3-vectors, as in `computeNormal` of
`src/edgeSelection.ts`. -/
def cross3 {α : Type} [LinearOrderedField α] (a b : Vec3 α) : Vec3 α :=
  (a.2.1 * b.2.2 - a.2.2 * b.2.1,
   a.2.2 * b.1 - a.1 * b.2.2,
   a.1 * b.2.1 - a.2.1 * b.1)

/-- Scalar multiple of a 3-vector. -/
def smul3 {α : Type} [LinearOrderedField α] (t : α) (v : Vec3 α) : Vec3 α :=
  (t * v.1, t * v.2.1, t * v.2.2)

/-- Componentwise sum of two 3-vectors. -/
def add3 {α : Type} [LinearOrderedField α] (a b : Vec3 α) : Vec3 α :=
  (a.1 + b.1, a.2.1 + b.2.1, a.2.2 + b.2.2)

/-- The transcendental primitives used by the source (`Math.sqrt`,
`Math.acos`, `Math.PI`), abstracted so that the pipeline can be instantiated
both over `ℝ` (true semantics) and over `ℚ` (executable instances for the
facts that do not depend on these values). -/
structure RealOps (α : Type) where
  sqrt : α → α
  acos : α → α
  pi : α

/-- Real-number instantiation of the scalar primitives: the semantics of the
JavaScript `Math` functions used by the source. -/
noncomputable def realOps : RealOps ℝ :=
  { sqrt := Real.sqrt, acos := Real.arccos, pi := Real.pi }

/-- Computable stand-in instantiation over `ℚ`, used only for concrete
instances of facts that are independent of the values of `sqrt`/`acos`/`pi`
(edge-map combinatorics, control flow of the orchestrator). -/
def ratOps : RealOps ℚ :=
  { sqrt := id, acos := id, pi := 180 }

/-- The `MeshEdge` record of `src/edgeSelection.ts`: an edge of the mesh with
its two vertex indices, endpoint positions, adjacent-face normals and
dihedral angle in degrees. -/
structure MeshEdge (α : Type) where
  v0 : Nat
  v1 : Nat
  p0 : Vec3 α
  p1 : Vec3 α
  n0 : Vec3 α
  n1 : Vec3 α
  dihedralAngle : α
deriving DecidableEq

/-- The `EdgeSelection` tagged union of `src/edgeSelection.ts`: point-based
selection (query point plus optional `maxDistance`, absent meaning
`Infinity`) or angle-based selection (`minAngle` in degrees). -/
inductive EdgeSelection (α : Type) where
  | point (point : Vec3 α) (maxDistance : Option α)
  | angle (minAngle : α)
deriving DecidableEq

/-- Squared point-to-segment distance, embedding `pointToSegmentDistance` of
`src/edgeSelection.ts`.  The source returns `Math.sqrt` of this value; the
square root is omitted here and every use compares squares instead (see the
file header). -/
def pointToSegmentDistanceSq {α : Type} [LinearOrderedField α]
    (p a b : Vec3 α) : α :=
  let ab := sub3 b a
  let ap := sub3 p a
  let abLenSq := dot3 ab ab
  if abLenSq < 1 / 10 ^ 12 then
    -- degenerate segment: fall back to the point-to-endpoint distance
    dot3 ap ap
  else
    let t := max 0 (min 1 (dot3 ap ab / abLenSq))
    let closest := add3 a (smul3 t ab)
    let d := sub3 p closest
    dot3 d d

/-- Decides `dist <= maxDist` of `selectByPoint` on squared distances:
`dist = √distSq` with `distSq ≥ 0`, so `dist ≤ m ↔ 0 ≤ m ∧ distSq ≤ m ^ 2`;
an absent `maxDistance` is `Infinity` and every distance qualifies. -/
def withinMaxSq {α : Type} [LinearOrderedField α]
    (maxDistance : Option α) (dSq : α) : Bool :=
  match maxDistance with
  | none => true
  | some m => decide (0 ≤ m) && decide (dSq ≤ m ^ 2)

/-- One iteration of the `selectByPoint` loop: keep the running closest
qualifying edge together with its squared distance (`none` models
`closestEdge = null`, `closestDist = Infinity`). -/
def selectByPointStep {α : Type} [LinearOrderedField α]
    (point : Vec3 α) (maxDistance : Option α)
    (acc : Option (MeshEdge α × α)) (edge : MeshEdge α) :
    Option (MeshEdge α × α) :=
  let dSq := pointToSegmentDistanceSq point edge.p0 edge.p1
  let isCloser : Bool :=
    match acc with
    | none => true
    | some (_, closestSq) => decide (dSq < closestSq)
  if isCloser && withinMaxSq maxDistance dSq then some (edge, dSq) else acc

/-- The `selectByPoint` function of `src/edgeSelection.ts`: scan all edges,
keep the closest one whose distance does not exceed `maxDistance`, return it
as a singleton list (empty when no edge qualifies). -/
def selectByPoint {α : Type} [LinearOrderedField α]
    (edges : List (MeshEdge α)) (point : Vec3 α) (maxDistance : Option α) :
    List (MeshEdge α) :=
  match edges.foldl (selectByPointStep point maxDistance) none with
  | some (e, _) => [e]
  | none => []

/-- The `selectByAngle` function of `src/edgeSelection.ts`: with threshold
`180 - minAngle`, keep every edge whose dihedral angle is `<=` the
threshold. -/
def selectByAngle {α : Type} [LinearOrderedField α]
    (edges : List (MeshEdge α)) (minAngle : α) : List (MeshEdge α) :=
  let threshold := 180 - minAngle
  edges.filter fun edge => edge.dihedralAngle ≤ threshold

/-- The `selectEdges` dispatcher of `src/edgeSelection.ts`. -/
def selectEdges {α : Type} [LinearOrderedField α]
    (edges : List (MeshEdge α)) (selection : EdgeSelection α) :
    List (MeshEdge α) :=
  match selection with
  | .point p maxDistance => selectByPoint edges p maxDistance
  | .angle minAngle => selectByAngle edges minAngle

/-- The mesh data read by `extractEdges` from `mf.getMesh()`: a flat triangle
index list, a flat per-vertex property buffer (positions are the first three
properties of each vertex) and the per-vertex property count. -/
structure Mesh (α : Type) where
  triVerts : List Nat
  vertProperties : List α
  numProp : Nat
deriving DecidableEq

/-- Number of triangles, `triVerts.length / 3` in the source. -/
def numTris {α : Type} (m : Mesh α) : Nat :=
  m.triVerts.length / 3

/-- Vertex index `j` (0, 1 or 2) of triangle `t`, i.e. `triVerts[t*3+j]`. -/
def triIdx {α : Type} (m : Mesh α) (t j : Nat) : Nat :=
  m.triVerts.getD (t * 3 + j) 0

/-- The `getVertex` helper of `extractEdges`: the three position properties
of vertex `idx`. -/
def getVertex {α : Type} [LinearOrderedField α] (m : Mesh α) (idx : Nat) :
    Vec3 α :=
  (m.vertProperties.getD (idx * m.numProp) 0,
   m.vertProperties.getD (idx * m.numProp + 1) 0,
   m.vertProperties.getD (idx * m.numProp + 2) 0)

/-- The `computeNormal` helper of `extractEdges`: cross product of the two
edge vectors, normalised only when its length exceeds `1e-12` (degenerate
triangles keep the unnormalised, possibly zero, vector). -/
def computeNormal {α : Type} [LinearOrderedField α] (ops : RealOps α)
    (v0 v1 v2 : Vec3 α) : Vec3 α :=
  let e1 := sub3 v1 v0
  let e2 := sub3 v2 v0
  let n := cross3 e1 e2
  let len := ops.sqrt (dot3 n n)
  if 1 / 10 ^ 12 < len then (n.1 / len, n.2.1 / len, n.2.2 / len) else n

/-- Unordered edge key: the source builds the string `"min_max"` from the two
vertex indices; the key is modelled by the corresponding ordered pair, on
which the string encoding is injective. -/
def edgeKey (a b : Nat) : Nat × Nat :=
  if a < b then (a, b) else (b, a)

/-- One adjacency record pushed into the edge map: the triangle index and its
face normal. -/
structure TriEntry (α : Type) where
  tri : Nat
  normal : Vec3 α
deriving DecidableEq

/-- The `edgeToTris` map: an insertion-ordered association list, modelling a
JS `Map` from edge key to adjacency list. -/
abbrev EdgeMap (α : Type) := List ((Nat × Nat) × List (TriEntry α))

/-- Pushing one adjacency record under a key: append to the key's existing
list, or append a new singleton binding at the end of the map (JS `Map`
insertion order). -/
def insertEntry {α : Type} :
    EdgeMap α → Nat × Nat → TriEntry α → EdgeMap α
  | [], k, v => [(k, [v])]
  | (k', vs) :: rest, k, v =>
      if k' = k then (k', vs ++ [v]) :: rest
      else (k', vs) :: insertEntry rest k v

/-- The three unordered edge keys of triangle `t`, in source order
`[i0,i1], [i1,i2], [i2,i0]`. -/
def triKeys {α : Type} (m : Mesh α) (t : Nat) : List (Nat × Nat) :=
  [edgeKey (triIdx m t 0) (triIdx m t 1),
   edgeKey (triIdx m t 1) (triIdx m t 2),
   edgeKey (triIdx m t 2) (triIdx m t 0)]

/-- The face normal of triangle `t`. -/
def triNormal {α : Type} [LinearOrderedField α] (ops : RealOps α)
    (m : Mesh α) (t : Nat) : Vec3 α :=
  computeNormal ops (getVertex m (triIdx m t 0)) (getVertex m (triIdx m t 1))
    (getVertex m (triIdx m t 2))

/-- The edge-map construction loop of `extractEdges`: for each triangle, push
`(triangle, normal)` under each of its three edge keys. -/
def buildEdgeMap {α : Type} [LinearOrderedField α] (ops : RealOps α)
    (m : Mesh α) : EdgeMap α :=
  (List.range (numTris m)).foldl
    (fun acc t =>
      (triKeys m t).foldl
        (fun acc' k => insertEntry acc' k ⟨t, triNormal ops m t⟩) acc)
    []

/-- The `extractEdges` function of `src/edgeSelection.ts`: keep the edge-map
entries with exactly two adjacent triangles and turn each into a `MeshEdge`,
with the dihedral angle `acos(clamp(dot(n0,n1), -1, 1)) * 180 / π`. -/
def extractEdges {α : Type} [LinearOrderedField α] (ops : RealOps α)
    (m : Mesh α) : List (MeshEdge α) :=
  ((buildEdgeMap ops m).filter fun kv => kv.2.length = 2).map fun kv =>
    let n0 := (kv.2.getD 0 ⟨0, (0, 0, 0)⟩).normal
    let n1 := (kv.2.getD 1 ⟨0, (0, 0, 0)⟩).normal
    let d := dot3 n0 n1
    let clampedDot := max (-1) (min 1 d)
    { v0 := kv.1.1
      v1 := kv.1.2
      p0 := getVertex m kv.1.1
      p1 := getVertex m kv.1.2
      n0 := n0
      n1 := n1
      dihedralAngle := ops.acos clampedDot * (180 / ops.pi) }

/-- All `3 * numTris` unordered edge keys of the mesh, one per triangle edge
slot, in processing order. -/
def allSlots {α : Type} (m : Mesh α) : List (Nat × Nat) :=
  (List.range (numTris m)).flatMap (triKeys m)

/-- Number of occurrences of a key in a list of keys. -/
def keyFreq : List (Nat × Nat) → Nat × Nat → Nat
  | [], _ => 0
  | k' :: rest, k => keyFreq rest k + (if k' = k then 1 else 0)

/-- Multiplicity of an unordered vertex pair among the mesh's triangle edge
slots. -/
def slotCount {α : Type} (m : Mesh α) (p : Nat × Nat) : Nat :=
  keyFreq (allSlots m) p

/-- Number of distinct triangles having the unordered pair `p` among their
edges: the counting used by the spec's "shared by exactly two triangles". -/
def triCountPair {α : Type} (m : Mesh α) (p : Nat × Nat) : Nat :=
  ((List.range (numTris m)).filter fun t => p ∈ triKeys m t).length

/-- Lookup of a key's adjacency list in the edge map (`edgeToTris.get`). -/
def findEntries {α : Type} : EdgeMap α → Nat × Nat → Option (List (TriEntry α))
  | [], _ => none
  | (k', vs) :: rest, k => if k' = k then some vs else findEntries rest k

/-- Length of a key's adjacency list, zero when the key is absent. -/
def entriesLen {α : Type} (mp : EdgeMap α) (k : Nat × Nat) : Nat :=
  ((findEntries mp k).getD []).length

/-- Keys of the edge map, in insertion order. -/
def mapKeys {α : Type} (mp : EdgeMap α) : List (Nat × Nat) :=
  mp.map Prod.fst

/-- Folding a list of key/record pushes into the edge map. -/
def foldIns {α : Type} (mp : EdgeMap α)
    (L : List ((Nat × Nat) × TriEntry α)) : EdgeMap α :=
  L.foldl (fun acc p => insertEntry acc p.1 p.2) mp

/-- All key/record pushes performed by `buildEdgeMap`, in order. -/
def allPushes {α : Type} [LinearOrderedField α] (ops : RealOps α)
    (m : Mesh α) : List ((Nat × Nat) × TriEntry α) :=
  (List.range (numTris m)).flatMap fun t =>
    (triKeys m t).map fun k => (k, ⟨t, triNormal ops m t⟩)

theorem findEntries_insertEntry {α : Type} (mp : EdgeMap α) (k : Nat × Nat)
    (v : TriEntry α) (k' : Nat × Nat) :
    findEntries (insertEntry mp k v) k' =
      if k' = k then some (((findEntries mp k).getD []) ++ [v])
      else findEntries mp k' := by
  induction mp with
  | nil =>
      by_cases h : k' = k
      · subst h; simp [insertEntry, findEntries]
      · simp [insertEntry, findEntries, h, Ne.symm h]
  | cons hd tl ih =>
      obtain ⟨k0, vs⟩ := hd
      by_cases h0 : k0 = k
      · subst h0
        by_cases h1 : k' = k0
        · subst h1; simp [insertEntry, findEntries]
        · simp [insertEntry, findEntries, h1, Ne.symm h1]
      · by_cases h1 : k0 = k'
        · subst h1
          simp [insertEntry, findEntries, h0, Ne.symm h0]
        · simp [insertEntry, findEntries, h0, h1, ih]

theorem entriesLen_insertEntry {α : Type} (mp : EdgeMap α) (k : Nat × Nat)
    (v : TriEntry α) (k' : Nat × Nat) :
    entriesLen (insertEntry mp k v) k' =
      entriesLen mp k' + (if k' = k then 1 else 0) := by
  unfold entriesLen
  rw [findEntries_insertEntry]
  by_cases h : k' = k
  · subst h; simp
  · simp [h]

theorem entriesLen_foldIns {α : Type}
    (L : List ((Nat × Nat) × TriEntry α)) :
    ∀ (mp : EdgeMap α) (k : Nat × Nat),
      entriesLen (foldIns mp L) k =
        entriesLen mp k + keyFreq (L.map Prod.fst) k := by
  induction L with
  | nil => intro mp k; simp [foldIns, keyFreq]
  | cons p rest ih =>
      intro mp k
      have : foldIns mp (p :: rest) = foldIns (insertEntry mp p.1 p.2) rest := rfl
      rw [this, ih, entriesLen_insertEntry]
      by_cases h : k = p.1
      · simp [keyFreq, h]; omega
      · simp [keyFreq, h, Ne.symm h]

theorem foldl_insert_flatMap {α : Type}
    (f : Nat → List ((Nat × Nat) × TriEntry α)) (ts : List Nat) :
    ∀ mp : EdgeMap α,
      ts.foldl
        (fun acc t => (f t).foldl (fun a p => insertEntry a p.1 p.2) acc) mp
        = foldIns mp (ts.flatMap f) := by
  induction ts with
  | nil => intro mp; simp [foldIns]
  | cons t ts ih =>
      intro mp
      simp only [List.foldl_cons, List.flatMap_cons]
      rw [ih]
      simp only [foldIns, List.foldl_append]

theorem buildEdgeMap_eq_foldIns {α : Type} [LinearOrderedField α]
    (ops : RealOps α) (m : Mesh α) :
    buildEdgeMap ops m = foldIns [] (allPushes ops m) := by
  unfold buildEdgeMap allPushes
  rw [← foldl_insert_flatMap]
  congr 1

theorem map_fst_allPushes {α : Type} [LinearOrderedField α]
    (ops : RealOps α) (m : Mesh α) :
    (allPushes ops m).map Prod.fst = allSlots m := by
  unfold allPushes allSlots
  rw [List.map_flatMap]
  congr 1

theorem entriesLen_buildEdgeMap {α : Type} [LinearOrderedField α]
    (ops : RealOps α) (m : Mesh α) (k : Nat × Nat) :
    entriesLen (buildEdgeMap ops m) k = slotCount m k := by
  rw [buildEdgeMap_eq_foldIns, entriesLen_foldIns, map_fst_allPushes]
  simp [entriesLen, findEntries, slotCount]

theorem mem_mapKeys_insertEntry {α : Type} (mp : EdgeMap α)
    (k : Nat × Nat) (v : TriEntry α) (k' : Nat × Nat) :
    k' ∈ mapKeys (insertEntry mp k v) ↔ k' ∈ mapKeys mp ∨ k' = k := by
  induction mp with
  | nil => simp [insertEntry, mapKeys]
  | cons hd tl ih =>
      obtain ⟨k0, vs⟩ := hd
      by_cases h0 : k0 = k
      · subst h0; simp [insertEntry, mapKeys]; tauto
      · simp [insertEntry, mapKeys, h0] at ih ⊢; tauto

theorem nodup_mapKeys_insertEntry {α : Type} {mp : EdgeMap α}
    (h : (mapKeys mp).Nodup) (k : Nat × Nat) (v : TriEntry α) :
    (mapKeys (insertEntry mp k v)).Nodup := by
  induction mp with
  | nil => simp [insertEntry, mapKeys]
  | cons hd tl ih =>
      obtain ⟨k0, vs⟩ := hd
      simp only [mapKeys, List.map_cons, List.nodup_cons] at h
      by_cases h0 : k0 = k
      · subst h0
        simpa [insertEntry, mapKeys] using h
      · have htl := ih h.2
        simp only [insertEntry, h0, if_false, mapKeys, List.map_cons,
          List.nodup_cons]
        refine ⟨?_, htl⟩
        intro hmem
        rcases (mem_mapKeys_insertEntry tl k v k0).1 hmem with hin | hk
        · exact h.1 hin
        · exact h0 hk

theorem nodup_mapKeys_foldIns {α : Type}
    (L : List ((Nat × Nat) × TriEntry α)) :
    ∀ mp : EdgeMap α, (mapKeys mp).Nodup → (mapKeys (foldIns mp L)).Nodup := by
  induction L with
  | nil => intro mp h; simpa [foldIns] using h
  | cons p rest ih =>
      intro mp h
      exact ih (insertEntry mp p.1 p.2) (nodup_mapKeys_insertEntry h p.1 p.2)

theorem nodup_mapKeys_buildEdgeMap {α : Type} [LinearOrderedField α]
    (ops : RealOps α) (m : Mesh α) :
    (mapKeys (buildEdgeMap ops m)).Nodup := by
  rw [buildEdgeMap_eq_foldIns]
  exact nodup_mapKeys_foldIns _ [] (by simp [mapKeys])

theorem mem_mapKeys_foldIns {α : Type}
    (L : List ((Nat × Nat) × TriEntry α)) :
    ∀ (mp : EdgeMap α) (k : Nat × Nat), k ∈ mapKeys (foldIns mp L) →
      k ∈ mapKeys mp ∨ k ∈ L.map Prod.fst := by
  induction L with
  | nil => intro mp k h; simp [foldIns] at h; exact Or.inl h
  | cons p rest ih =>
      intro mp k h
      rcases ih (insertEntry mp p.1 p.2) k h with hin | hrest
      · rcases (mem_mapKeys_insertEntry mp p.1 p.2 k).1 hin with hmp | hk
        · exact Or.inl hmp
        · exact Or.inr (by simp [hk])
      · exact Or.inr (by simp [hrest])

theorem findEntries_of_mem {α : Type} {mp : EdgeMap α}
    (h : (mapKeys mp).Nodup) {kv : (Nat × Nat) × List (TriEntry α)}
    (hm : kv ∈ mp) : findEntries mp kv.1 = some kv.2 := by
  induction mp with
  | nil => cases hm
  | cons hd tl ih =>
      obtain ⟨k0, vs⟩ := hd
      simp only [mapKeys, List.map_cons, List.nodup_cons] at h
      rcases List.mem_cons.1 hm with rfl | htl
      · simp [findEntries]
      · have hne : ¬ (k0 = kv.1) := by
          intro he
          exact h.1 (he ▸ (List.mem_map.2 ⟨kv, htl, rfl⟩))
        simp [findEntries, hne]
        exact ih h.2 htl

theorem mem_of_findEntries {α : Type} {mp : EdgeMap α} {k : Nat × Nat}
    {vs : List (TriEntry α)} (h : findEntries mp k = some vs) :
    (k, vs) ∈ mp := by
  induction mp with
  | nil => simp [findEntries] at h
  | cons hd tl ih =>
      obtain ⟨k0, vs0⟩ := hd
      by_cases h0 : k0 = k
      · subst h0
        simp [findEntries] at h
        subst h
        exact List.mem_cons_self _ _
      · simp [findEntries, h0] at h
        exact List.mem_cons_of_mem _ (ih h)

theorem values_ne_nil_insertEntry {α : Type} {mp : EdgeMap α}
    (h : ∀ kv ∈ mp, kv.2 ≠ []) (k : Nat × Nat) (v : TriEntry α) :
    ∀ kv ∈ insertEntry mp k v, kv.2 ≠ [] := by
  induction mp with
  | nil =>
      intro kv hkv
      simp [insertEntry] at hkv
      simp [hkv]
  | cons hd tl ih =>
      obtain ⟨k0, vs⟩ := hd
      intro kv hkv
      by_cases h0 : k0 = k
      · subst h0
        simp only [insertEntry, if_pos rfl] at hkv
        rcases List.mem_cons.1 hkv with rfl | htl
        · simp
        · exact h kv (List.mem_cons_of_mem _ htl)
      · simp only [insertEntry, h0, if_false] at hkv
        rcases List.mem_cons.1 hkv with rfl | htl
        · exact h (k0, vs) (List.mem_cons_self _ _)
        · exact ih (fun kv' hkv' => h kv' (List.mem_cons_of_mem _ hkv')) kv htl

theorem values_ne_nil_foldIns {α : Type}
    (L : List ((Nat × Nat) × TriEntry α)) :
    ∀ mp : EdgeMap α, (∀ kv ∈ mp, kv.2 ≠ []) →
      ∀ kv ∈ foldIns mp L, kv.2 ≠ [] := by
  induction L with
  | nil => intro mp h; simpa [foldIns] using h
  | cons p rest ih =>
      intro mp h
      exact ih (insertEntry mp p.1 p.2) (values_ne_nil_insertEntry h p.1 p.2)

theorem values_ne_nil_buildEdgeMap {α : Type} [LinearOrderedField α]
    (ops : RealOps α) (m : Mesh α) :
    ∀ kv ∈ buildEdgeMap ops m, kv.2 ≠ [] := by
  rw [buildEdgeMap_eq_foldIns]
  exact values_ne_nil_foldIns _ [] (by simp)

theorem keyFreq_pos_iff (L : List (Nat × Nat)) (k : Nat × Nat) :
    0 < keyFreq L k ↔ k ∈ L := by
  induction L with
  | nil => simp [keyFreq]
  | cons k' rest ih =>
      by_cases h : k' = k
      · subst h; simp [keyFreq]
      · simp [keyFreq, h, Ne.symm h, ih]

theorem edgeKey_fst_le (a b : Nat) : (edgeKey a b).1 ≤ (edgeKey a b).2 := by
  unfold edgeKey
  by_cases h : a < b
  · simp [h]; omega
  · simp [h]; omega

theorem mem_allSlots_fst_le {α : Type} {m : Mesh α} {k : Nat × Nat}
    (h : k ∈ allSlots m) : k.1 ≤ k.2 := by
  rw [allSlots] at h
  obtain ⟨t, _, hk⟩ := List.mem_flatMap.1 h
  simp only [triKeys, List.mem_cons, List.mem_singleton] at hk
  rcases hk with rfl | rfl | rfl | h'
  · exact edgeKey_fst_le _ _
  · exact edgeKey_fst_le _ _
  · exact edgeKey_fst_le _ _
  · cases h'

theorem mem_buildEdgeMap_key_mem_allSlots {α : Type} [LinearOrderedField α]
    {ops : RealOps α} {m : Mesh α} {kv : (Nat × Nat) × List (TriEntry α)}
    (h : kv ∈ buildEdgeMap ops m) : kv.1 ∈ allSlots m := by
  have hk : kv.1 ∈ mapKeys (buildEdgeMap ops m) :=
    List.mem_map.2 ⟨kv, h, rfl⟩
  rw [buildEdgeMap_eq_foldIns] at hk
  rcases mem_mapKeys_foldIns _ _ _ hk with hnil | hp
  · simp [mapKeys] at hnil
  · rwa [map_fst_allPushes] at hp

theorem mem_buildEdgeMap_len {α : Type} [LinearOrderedField α]
    {ops : RealOps α} {m : Mesh α} {kv : (Nat × Nat) × List (TriEntry α)}
    (h : kv ∈ buildEdgeMap ops m) : kv.2.length = slotCount m kv.1 := by
  have hfind := findEntries_of_mem (nodup_mapKeys_buildEdgeMap ops m) h
  have : entriesLen (buildEdgeMap ops m) kv.1 = kv.2.length := by
    simp [entriesLen, hfind]
  rw [← this, entriesLen_buildEdgeMap]

/-- Total number of adjacency records stored in the edge map. -/
def totalLen {α : Type} (mp : EdgeMap α) : Nat :=
  (mp.map fun kv => kv.2.length).sum

theorem totalLen_insertEntry {α : Type} (mp : EdgeMap α) (k : Nat × Nat)
    (v : TriEntry α) : totalLen (insertEntry mp k v) = totalLen mp + 1 := by
  induction mp with
  | nil => simp [insertEntry, totalLen]
  | cons hd tl ih =>
      obtain ⟨k0, vs⟩ := hd
      by_cases h0 : k0 = k
      · subst h0; simp [insertEntry, totalLen]; omega
      · simp [insertEntry, totalLen, h0] at ih ⊢; omega

theorem totalLen_foldIns {α : Type} (L : List ((Nat × Nat) × TriEntry α)) :
    ∀ mp : EdgeMap α, totalLen (foldIns mp L) = totalLen mp + L.length := by
  induction L with
  | nil => intro mp; simp [foldIns]
  | cons p rest ih =>
      intro mp
      have : foldIns mp (p :: rest) = foldIns (insertEntry mp p.1 p.2) rest :=
        rfl
      rw [this, ih, totalLen_insertEntry]
      simp; omega

theorem length_allSlots {α : Type} (m : Mesh α) :
    (allSlots m).length = 3 * numTris m := by
  rw [allSlots, List.length_flatMap]
  have : (List.range (numTris m)).map (List.length ∘ triKeys m)
      = (List.range (numTris m)).map (fun _ => 3) := by
    apply List.map_congr_left
    intro t _
    simp [triKeys]
  rw [this, List.map_const', List.sum_replicate]
  simp [mul_comm]

theorem totalLen_buildEdgeMap {α : Type} [LinearOrderedField α]
    (ops : RealOps α) (m : Mesh α) :
    totalLen (buildEdgeMap ops m) = 3 * numTris m := by
  rw [buildEdgeMap_eq_foldIns, totalLen_foldIns]
  have : (allPushes ops m).length = (allSlots m).length := by
    rw [← map_fst_allPushes ops m, List.length_map]
  simp [totalLen, this, length_allSlots]

theorem sum_map_of_constant {β : Type} (l : List β) (f : β → Nat) (c : Nat)
    (h : ∀ x ∈ l, f x = c) : (l.map f).sum = c * l.length := by
  induction l with
  | nil => simp
  | cons x xs ih =>
      simp only [List.map_cons, List.sum_cons, List.length_cons]
      rw [h x (List.mem_cons_self _ _), ih fun y hy => h y (List.mem_cons_of_mem _ hy)]
      ring

theorem mem_extractEdges {α : Type} [LinearOrderedField α]
    {ops : RealOps α} {m : Mesh α} {e : MeshEdge α}
    (he : e ∈ extractEdges ops m) :
    ∃ kv ∈ buildEdgeMap ops m, kv.2.length = 2 ∧ e.v0 = kv.1.1 ∧
      e.v1 = kv.1.2 ∧
      e.dihedralAngle
        = ops.acos (max (-1) (min 1 (dot3 e.n0 e.n1))) * (180 / ops.pi) := by
  rw [extractEdges] at he
  obtain ⟨kv, hkv, hmk⟩ := List.mem_map.1 he
  obtain ⟨hmem, hlen⟩ := List.mem_filter.1 hkv
  subst hmk
  exact ⟨kv, hmem, by simpa using hlen, rfl, rfl, rfl⟩

/-- Concrete mesh with a single degenerate triangle `[0,1,0]`: the pair
`{0,1}` occupies two edge slots of one and the same triangle. -/
def degTriMesh : Mesh ℚ :=
  { triVerts := [0, 1, 0], vertProperties := [], numProp := 3 }

/-- Concrete mesh of the two degenerate triangles `[0,1,0]` and `[0,0,1]`:
every unordered pair that occurs at all occurs in exactly two distinct
triangles, yet the slot multiplicities are 4 (for `{0,1}`) and 2 (for
`{0,0}`). -/
def doubleDegMesh : Mesh ℚ :=
  { triVerts := [0, 1, 0, 0, 0, 1], vertProperties := [], numProp := 3 }

/-- Concrete mesh repeating the degenerate triangle `[0,0,1]` twice: the
self-pair `{0,0}` occupies exactly two edge slots and is extracted with
`v0 = v1 = 0`. -/
def repeatedTriMesh : Mesh ℚ :=
  { triVerts := [0, 0, 1, 0, 0, 1], vertProperties := [], numProp := 3 }

/-- Concrete combinatorial tetrahedron: a closed mesh in which every edge
pair occupies exactly two edge slots. -/
def tetraMesh : Mesh ℚ :=
  { triVerts := [0, 1, 2, 0, 3, 1, 1, 3, 2, 2, 3, 0],
    vertProperties := [], numProp := 3 }

/-- C3 (amended): `extractEdges` outputs an edge for an unordered
vertex-index pair exactly when that pair occupies exactly two of the
`3 * numTris` triangle edge slots (occurrences counted with multiplicity,
so a pair repeated inside a single degenerate triangle counts once per
slot); extraction is a total function and never fails. -/
theorem extractEdges_pair_mem_iff {α : Type} [LinearOrderedField α]
    (ops : RealOps α) (m : Mesh α) (p : Nat × Nat) :
    (∃ e ∈ extractEdges ops m, (e.v0, e.v1) = p) ↔ slotCount m p = 2 := by
  constructor
  · rintro ⟨e, he, hp⟩
    obtain ⟨kv, hmem, hlen, hv0, hv1, -⟩ := mem_extractEdges he
    have hkey : kv.1 = p := by
      rw [← hp, hv0, hv1]
    rw [← hkey, ← mem_buildEdgeMap_len hmem]
    exact hlen
  · intro hsc
    have hel : entriesLen (buildEdgeMap ops m) p = 2 := by
      rw [entriesLen_buildEdgeMap]; exact hsc
    cases hfe : findEntries (buildEdgeMap ops m) p with
    | none => rw [entriesLen, hfe] at hel; simp at hel
    | some vs =>
        have hlen : vs.length = 2 := by
          rw [entriesLen, hfe] at hel; simpa using hel
        have hmem := mem_of_findEntries hfe
        have hf : (p, vs) ∈
            (buildEdgeMap ops m).filter (fun kv => kv.2.length = 2) :=
          List.mem_filter.2 ⟨hmem, by simp [hlen]⟩
        rw [extractEdges]
        exact ⟨_, List.mem_map_of_mem _ hf, rfl⟩

/-- C3 counterexample: on the mesh with the single degenerate triangle
`[0,1,0]`, the pair `{0,1}` is extracted although it occurs in exactly one
triangle, not two — refuting the claim's "in exactly two triangles" counting
of distinct triangles. -/
theorem extractEdges_pair_one_triangle_cex :
    (∃ e ∈ extractEdges ratOps degTriMesh, (e.v0, e.v1) = (0, 1)) ∧
      triCountPair degTriMesh (0, 1) = 1 := by
  decide

/-- C4 (amended): when every unordered pair occurring among the triangle
edge slots occupies exactly two slots, the number of extracted edges `E`
satisfies `2 * E = 3 * triangleCount`, i.e. `E = 3 * triangleCount / 2`. -/
theorem extractEdges_closed_count {α : Type} [LinearOrderedField α]
    (ops : RealOps α) (m : Mesh α)
    (h : ∀ p ∈ allSlots m, slotCount m p = 2) :
    2 * (extractEdges ops m).length = 3 * numTris m := by
  have hall : ∀ kv ∈ buildEdgeMap ops m, kv.2.length = 2 := by
    intro kv hkv
    rw [mem_buildEdgeMap_len hkv]
    exact h kv.1 (mem_buildEdgeMap_key_mem_allSlots hkv)
  have hfilter :
      (buildEdgeMap ops m).filter (fun kv => kv.2.length = 2)
        = buildEdgeMap ops m :=
    List.filter_eq_self.2 fun kv hkv => by simp [hall kv hkv]
  have hlen1 : (extractEdges ops m).length = (buildEdgeMap ops m).length := by
    rw [extractEdges, List.length_map, hfilter]
  have h2 : totalLen (buildEdgeMap ops m)
      = 2 * (buildEdgeMap ops m).length :=
    sum_map_of_constant _ _ 2 hall
  rw [hlen1, ← h2, totalLen_buildEdgeMap]

/-- C4 witness: the combinatorial tetrahedron satisfies the closure
hypothesis and its six extracted edges satisfy `2 * 6 = 3 * 4`. -/
theorem extractEdges_closed_count_witness :
    (∀ p ∈ allSlots tetraMesh, slotCount tetraMesh p = 2) ∧
      2 * (extractEdges ratOps tetraMesh).length = 3 * numTris tetraMesh :=
  ⟨by decide, extractEdges_closed_count ratOps tetraMesh (by decide)⟩

/-- C4 counterexample: in `doubleDegMesh` every occurring pair occurs in
exactly two distinct triangles (the claim's hypothesis), yet only one edge
is extracted while `3 * triangleCount / 2 = 3`. -/
theorem extractEdges_closed_count_cex :
    (∀ p ∈ allSlots doubleDegMesh, triCountPair doubleDegMesh p = 2) ∧
      ¬((extractEdges ratOps doubleDegMesh).length
          = 3 * numTris doubleDegMesh / 2) := by
  decide

/-- C10 (amended): every extracted edge stores the smaller vertex index
first in the weak sense `v0 ≤ v1`; the inequality is strict except for
self-pairs arising from degenerate triangles with a repeated vertex
index. -/
theorem extractEdges_v0_le_v1 {α : Type} [LinearOrderedField α]
    (ops : RealOps α) (m : Mesh α) (e : MeshEdge α)
    (he : e ∈ extractEdges ops m) : e.v0 ≤ e.v1 := by
  obtain ⟨kv, hmem, -, hv0, hv1, -⟩ := mem_extractEdges he
  rw [hv0, hv1]
  exact mem_allSlots_fst_le (mem_buildEdgeMap_key_mem_allSlots hmem)

/-- Edge extracted from `degTriMesh` under the computable scalar
stand-ins. -/
def degTriEdge : MeshEdge ℚ :=
  { v0 := 0, v1 := 1, p0 := (0, 0, 0), p1 := (0, 0, 0), n0 := (0, 0, 0),
    n1 := (0, 0, 0), dihedralAngle := 0 }

/-- C10 witness: the edge extracted from the degenerate one-triangle mesh
has `v0 ≤ v1`. -/
theorem extractEdges_v0_le_v1_witness : degTriEdge.v0 ≤ degTriEdge.v1 := by
  have h : extractEdges ratOps degTriMesh = [degTriEdge] := by
    norm_num [extractEdges, buildEdgeMap, numTris, degTriMesh, degTriEdge,
      triKeys, triNormal, computeNormal, getVertex, triIdx, edgeKey,
      insertEntry, dot3, cross3, sub3, ratOps, List.range_succ]
  exact extractEdges_v0_le_v1 ratOps degTriMesh degTriEdge
    (h ▸ List.mem_singleton.2 rfl)

/-- C10 counterexample: the mesh repeating the degenerate triangle
`[0,0,1]` extracts an edge with `v0 = v1 = 0`, refuting the strict ordering
`v0 < v1`. -/
theorem extractEdges_v0_lt_v1_cex :
    ∃ e ∈ extractEdges ratOps repeatedTriMesh, ¬(e.v0 < e.v1) := by
  decide

/-- C1 (amended): with `minAngle1 < minAngle2`, angle selection with the
larger threshold `minAngle2` selects a subset of the edges selected with
`minAngle1` (a lower sharpness threshold selects no fewer edges — the
inclusion claimed by the spec runs in the opposite direction). -/
theorem selectByAngle_antitone {α : Type} [LinearOrderedField α]
    (edges : List (MeshEdge α)) (minAngle1 minAngle2 : α)
    (h : minAngle1 < minAngle2) :
    ∀ e ∈ selectEdges edges (.angle minAngle2),
      e ∈ selectEdges edges (.angle minAngle1) := by
  intro e he
  simp only [selectEdges, selectByAngle, List.mem_filter,
    decide_eq_true_eq] at he ⊢
  exact ⟨he.1, by linarith [he.2]⟩

/-- Concrete edge with dihedral angle `150`, selected by `minAngle = 10`
(threshold `170`) but not by `minAngle = 80` (threshold `100`). -/
def cexEdge150 : MeshEdge ℚ :=
  { v0 := 0, v1 := 1, p0 := (0, 0, 0), p1 := (0, 0, 0), n0 := (0, 0, 0),
    n1 := (0, 0, 0), dihedralAngle := 150 }

/-- C1 counterexample: with `minAngle1 = 10 < minAngle2 = 80`, the set
selected for `minAngle1` is not a subset of the set selected for
`minAngle2`: the angle-150 edge lies in the former only. -/
theorem selectByAngle_subset_cex :
    ¬ (∀ e ∈ selectEdges [cexEdge150] (.angle (10 : ℚ)),
        e ∈ selectEdges [cexEdge150] (.angle (80 : ℚ))) := by
  intro h
  have h1 : cexEdge150 ∈ selectEdges [cexEdge150] (.angle (10 : ℚ)) := by
    norm_num [selectEdges, selectByAngle, cexEdge150]
  have h2 := h cexEdge150 h1
  norm_num [selectEdges, selectByAngle, cexEdge150] at h2

/-- Concrete edge with dihedral angle `90`, selected by both `minAngle = 80`
and `minAngle = 10`. -/
def wEdge90 : MeshEdge ℚ :=
  { v0 := 0, v1 := 1, p0 := (0, 0, 0), p1 := (0, 0, 0), n0 := (0, 0, 0),
    n1 := (0, 0, 0), dihedralAngle := 90 }

/-- C1 witness: the angle-90 edge selected with `minAngle2 = 80` is also
selected with `minAngle1 = 10`. -/
theorem selectByAngle_antitone_witness :
    wEdge90 ∈ selectEdges [wEdge90] (.angle (10 : ℚ)) := by
  apply selectByAngle_antitone [wEdge90] 10 80 (by norm_num) wEdge90
  norm_num [selectEdges, selectByAngle, wEdge90]

theorem selectByPointStep_ne_none {α : Type} [LinearOrderedField α]
    (p : Vec3 α) (maxD : Option α) (acc : Option (MeshEdge α × α))
    (e : MeshEdge α) (r0 : MeshEdge α) (d0 : α) (hacc : acc = some (r0, d0)) :
    selectByPointStep p maxD acc e ≠ none := by
  subst hacc
  unfold selectByPointStep
  by_cases hc : (decide (pointToSegmentDistanceSq p e.p0 e.p1 < d0)
      && withinMaxSq maxD (pointToSegmentDistanceSq p e.p0 e.p1)) = true
  · simp [hc]
  · simp [hc]

theorem foldl_selectByPointStep_none {α : Type} [LinearOrderedField α]
    (p : Vec3 α) (maxD : Option α) (l : List (MeshEdge α)) :
    ∀ acc : Option (MeshEdge α × α),
      l.foldl (selectByPointStep p maxD) acc = none ↔
        (acc = none ∧ ∀ e ∈ l,
          withinMaxSq maxD (pointToSegmentDistanceSq p e.p0 e.p1) = false) := by
  induction l with
  | nil => intro acc; simp
  | cons e l ih =>
      intro acc
      rw [List.foldl_cons, ih]
      constructor
      · rintro ⟨hstep, hall⟩
        cases acc with
        | some rd =>
            exact absurd hstep
              (selectByPointStep_ne_none p maxD _ e rd.1 rd.2 (by simp))
        | none =>
            refine ⟨rfl, ?_⟩
            intro e' he'
            rcases List.mem_cons.1 he' with rfl | hl
            · by_contra hq
              rw [Bool.not_eq_false] at hq
              simp [selectByPointStep, hq] at hstep
            · exact hall e' hl
      · rintro ⟨hacc, hall⟩
        subst hacc
        have hq := hall e (List.mem_cons_self _ _)
        refine ⟨?_, fun e' he' => hall e' (List.mem_cons_of_mem _ he')⟩
        simp [selectByPointStep, hq]

theorem foldl_selectByPointStep_some {α : Type} [LinearOrderedField α]
    (p : Vec3 α) (maxD : Option α) (l : List (MeshEdge α)) :
    ∀ (acc : Option (MeshEdge α × α)) (r : MeshEdge α) (d : α),
      l.foldl (selectByPointStep p maxD) acc = some (r, d) →
      (acc = some (r, d) ∨
        (r ∈ l ∧ d = pointToSegmentDistanceSq p r.p0 r.p1 ∧
          withinMaxSq maxD d = true)) ∧
      (∀ e ∈ l,
        withinMaxSq maxD (pointToSegmentDistanceSq p e.p0 e.p1) = true →
          d ≤ pointToSegmentDistanceSq p e.p0 e.p1) ∧
      (∀ (r0 : MeshEdge α) (d0 : α), acc = some (r0, d0) → d ≤ d0) := by
  induction l with
  | nil =>
      intro acc r d h
      simp only [List.foldl_nil] at h
      refine ⟨Or.inl h, by simp, ?_⟩
      intro r0 d0 h0
      rw [h] at h0
      cases h0
      exact le_refl _
  | cons e l ih =>
      intro acc r d h
      rw [List.foldl_cons] at h
      obtain ⟨hA, hB, hC⟩ := ih (selectByPointStep p maxD acc e) r d h
      by_cases hcond : selectByPointStep p maxD acc e
          = some (e, pointToSegmentDistanceSq p e.p0 e.p1) ∧
          withinMaxSq maxD (pointToSegmentDistanceSq p e.p0 e.p1) = true
      · -- the step replaced the accumulator with edge `e`
        obtain ⟨hstep, hqE⟩ := hcond
        have hdE : d ≤ pointToSegmentDistanceSq p e.p0 e.p1 :=
          hC e (pointToSegmentDistanceSq p e.p0 e.p1) hstep
        refine ⟨?_, ?_, ?_⟩
        · rcases hA with heq | ⟨hmem, hrest⟩
          · rw [hstep] at heq
            cases heq
            exact Or.inr ⟨List.mem_cons_self _ _, rfl, hqE⟩
          · exact Or.inr ⟨List.mem_cons_of_mem _ hmem, hrest⟩
        · intro e' he' hq'
          rcases List.mem_cons.1 he' with rfl | hl
          · exact hdE
          · exact hB e' hl hq'
        · intro r0 d0 h0
          subst h0
          -- the step only replaces a `some` accumulator when strictly closer
          by_cases hlt : pointToSegmentDistanceSq p e.p0 e.p1 < d0
          · exact le_of_lt (lt_of_le_of_lt hdE hlt)
          · -- not strictly closer: the accumulator already was `(e, dSq e)`
            simp [selectByPointStep, hlt] at hstep
            rw [hstep.2]
            exact hdE
      · -- the step kept the accumulator
        have hkeep : selectByPointStep p maxD acc e = acc := by
          unfold selectByPointStep
          cases acc with
          | none =>
              by_cases hq : withinMaxSq maxD
                  (pointToSegmentDistanceSq p e.p0 e.p1) = true
              · exact absurd ⟨by simp [selectByPointStep, hq], hq⟩ hcond
              · rw [Bool.not_eq_true] at hq
                simp [hq]
          | some rd =>
              obtain ⟨r0, d0⟩ := rd
              by_cases hq : withinMaxSq maxD
                  (pointToSegmentDistanceSq p e.p0 e.p1) = true
              · by_cases hlt : pointToSegmentDistanceSq p e.p0 e.p1 < d0
                · exact absurd ⟨by simp [selectByPointStep, hq, hlt], hq⟩ hcond
                · simp [hq, hlt]
              · rw [Bool.not_eq_true] at hq
                simp [hq]
        rw [hkeep] at hA hC
        refine ⟨?_, ?_, hC⟩
        · rcases hA with heq | ⟨hmem, hrest⟩
          · exact Or.inl heq
          · exact Or.inr ⟨List.mem_cons_of_mem _ hmem, hrest⟩
        · intro e' he' hq'
          rcases List.mem_cons.1 he' with rfl | hl
          · -- `e` qualifies but was not taken: the accumulator was closer
            cases hacc : acc with
            | none =>
                exfalso
                apply hcond
                rw [hacc] at hkeep ⊢
                exact ⟨by simp [selectByPointStep, hq'], hq'⟩
            | some rd =>
                obtain ⟨r0, d0⟩ := rd
                have hd0 := hC r0 d0 hacc
                by_cases hlt : pointToSegmentDistanceSq p e'.p0 e'.p1 < d0
                · exfalso
                  apply hcond
                  rw [hacc]
                  exact ⟨by simp [selectByPointStep, hq', hlt], hq'⟩
                · push_neg at hlt
                  exact le_trans hd0 hlt
          · exact hB e' hl hq'

theorem winner_le_of_not_within {α : Type} [LinearOrderedField α]
    (maxD : Option α) {d dE : α}
    (hd : withinMaxSq maxD d = true) (hE : withinMaxSq maxD dE = false) :
    d ≤ dE := by
  cases maxD with
  | none => simp [withinMaxSq] at hE
  | some mD =>
      simp only [withinMaxSq, Bool.and_eq_true, decide_eq_true_eq] at hd
      have hE' : ¬ (0 ≤ mD ∧ dE ≤ mD ^ 2) := by
        simpa [withinMaxSq] using hE
      push_neg at hE'
      have h2 := hE' hd.1
      push_neg at h2
      linarith [hd.2]

/-- C2: for a point selection with optional `maxDistance` (absent meaning
unbounded), `selectEdges` returns at most one edge; the result is empty
exactly when no edge's segment distance is within `maxDistance` (squared
comparison, see the file header); and a returned edge comes from the input
list, is within `maxDistance`, and its squared segment distance is `≤` that
of every other edge in the list. -/
theorem selectByPoint_spec {α : Type} [LinearOrderedField α]
    (edges : List (MeshEdge α)) (p : Vec3 α) (maxDistance : Option α) :
    (selectEdges edges (.point p maxDistance)).length ≤ 1 ∧
    (selectEdges edges (.point p maxDistance) = [] ↔
      ∀ e ∈ edges, withinMaxSq maxDistance
        (pointToSegmentDistanceSq p e.p0 e.p1) = false) ∧
    ∀ r ∈ selectEdges edges (.point p maxDistance), r ∈ edges ∧
      withinMaxSq maxDistance (pointToSegmentDistanceSq p r.p0 r.p1) = true ∧
      ∀ e ∈ edges, pointToSegmentDistanceSq p r.p0 r.p1
        ≤ pointToSegmentDistanceSq p e.p0 e.p1 := by
  cases hres : edges.foldl (selectByPointStep p maxDistance) none with
  | none =>
      have hsel : selectEdges edges (.point p maxDistance) = [] := by
        simp [selectEdges, selectByPoint, hres]
      rw [hsel]
      refine ⟨by simp, ?_, by simp⟩
      constructor
      · intro _
        exact ((foldl_selectByPointStep_none p maxDistance edges none).1
          hres).2
      · intro _; rfl
  | some rd =>
      obtain ⟨r, d⟩ := rd
      have hsel : selectEdges edges (.point p maxDistance) = [r] := by
        simp [selectEdges, selectByPoint, hres]
      obtain ⟨hA, hB, -⟩ :=
        foldl_selectByPointStep_some p maxDistance edges none r d hres
      rcases hA with heq | ⟨hmem, hd, hq⟩
      · cases heq
      rw [hsel]
      refine ⟨by simp, ?_, ?_⟩
      · constructor
        · intro h; simp at h
        · intro hall
          exact absurd (hd ▸ hq) (by simp [hall r hmem])
      · intro r' hr'
        have hr : r' = r := by simpa using hr'
        subst hr
        refine ⟨hmem, hd ▸ hq, ?_⟩
        intro e he
        by_cases hqe : withinMaxSq maxDistance
            (pointToSegmentDistanceSq p e.p0 e.p1) = true
        · have h := hB e he hqe
          rw [hd] at h
          exact h
        · rw [Bool.not_eq_true] at hqe
          exact winner_le_of_not_within maxDistance (hd ▸ hq) hqe

/-- Concrete zero-length edge at the origin, at squared distance `0` from
the origin query point. -/
def wNearEdge : MeshEdge ℚ :=
  { v0 := 0, v1 := 1, p0 := (0, 0, 0), p1 := (0, 0, 0), n0 := (0, 0, 0),
    n1 := (0, 0, 0), dihedralAngle := 90 }

/-- Concrete zero-length edge at `(5,0,0)`, at squared distance `25` from
the origin query point. -/
def wFarEdge : MeshEdge ℚ :=
  { v0 := 2, v1 := 3, p0 := (5, 0, 0), p1 := (5, 0, 0), n0 := (0, 0, 0),
    n1 := (0, 0, 0), dihedralAngle := 90 }

/-- C2 witness: of the two concrete edges, point selection at the origin
returns the near one, whose squared segment distance is `≤` the far one's. -/
theorem selectByPoint_spec_witness :
    pointToSegmentDistanceSq ((0 : ℚ), 0, 0) wNearEdge.p0 wNearEdge.p1
      ≤ pointToSegmentDistanceSq ((0 : ℚ), 0, 0) wFarEdge.p0 wFarEdge.p1 := by
  have hmem : wNearEdge ∈
      selectEdges [wNearEdge, wFarEdge] (.point ((0 : ℚ), 0, 0) none) := by
    norm_num [selectEdges, selectByPoint, selectByPointStep,
      pointToSegmentDistanceSq, withinMaxSq, sub3, dot3, wNearEdge, wFarEdge]
  exact ((selectByPoint_spec [wNearEdge, wFarEdge] ((0 : ℚ), 0, 0)
    none).2.2 wNearEdge hmem).2.2 wFarEdge (by simp)

/-- C9: under the real-number semantics, every extracted edge's dihedral
angle equals `acos(clamp(dot(n0,n1), -1, 1)) * 180 / π`; the clamped dot
product always lies in `[-1, 1]` — the domain of `acos`, so the computation
never incurs a domain error — and consequently
`0 ≤ dihedralAngle ≤ 180`. -/
theorem extractEdges_dihedralAngle_bounds (m : Mesh ℝ) (e : MeshEdge ℝ)
    (he : e ∈ extractEdges realOps m) :
    e.dihedralAngle
      = Real.arccos (max (-1) (min 1 (dot3 e.n0 e.n1))) * (180 / Real.pi) ∧
    -1 ≤ max (-1) (min 1 (dot3 e.n0 e.n1)) ∧
    max (-1) (min 1 (dot3 e.n0 e.n1)) ≤ 1 ∧
    0 ≤ e.dihedralAngle ∧ e.dihedralAngle ≤ 180 := by
  obtain ⟨kv, hmem, hlen, hv0, hv1, hang⟩ := mem_extractEdges he
  have hang' : e.dihedralAngle
      = Real.arccos (max (-1) (min 1 (dot3 e.n0 e.n1))) * (180 / Real.pi) :=
    hang
  have hpi : (0 : ℝ) < 180 / Real.pi :=
    div_pos (by norm_num) Real.pi_pos
  refine ⟨hang', le_max_left _ _,
    max_le (by norm_num) (min_le_left _ _), ?_, ?_⟩
  · rw [hang']
    exact mul_nonneg (Real.arccos_nonneg _) (le_of_lt hpi)
  · rw [hang']
    calc Real.arccos (max (-1) (min 1 (dot3 e.n0 e.n1))) * (180 / Real.pi)
        ≤ Real.pi * (180 / Real.pi) :=
          mul_le_mul_of_nonneg_right (Real.arccos_le_pi _) (le_of_lt hpi)
      _ = 180 := by
          field_simp

/-- Real-coefficient copy of the degenerate one-triangle mesh. -/
def degTriMeshR : Mesh ℝ :=
  { triVerts := [0, 1, 0], vertProperties := [], numProp := 3 }

/-- The edge extracted from `degTriMeshR` under the real semantics: the
degenerate triangle has the zero normal, so the clamped dot product is `0`
and the dihedral angle is `arccos 0 * 180 / π = 90`. -/
noncomputable def degTriEdgeR : MeshEdge ℝ :=
  { v0 := 0, v1 := 1, p0 := (0, 0, 0), p1 := (0, 0, 0), n0 := (0, 0, 0),
    n1 := (0, 0, 0),
    dihedralAngle := Real.arccos 0 * (180 / Real.pi) }

/-- C9 witness: the concrete extracted edge of `degTriMeshR` satisfies the
dihedral-angle formula and bounds. -/
theorem extractEdges_dihedralAngle_bounds_witness :
    0 ≤ degTriEdgeR.dihedralAngle ∧ degTriEdgeR.dihedralAngle ≤ 180 := by
  have hmem : degTriEdgeR ∈ extractEdges realOps degTriMeshR := by
    have h : extractEdges realOps degTriMeshR = [degTriEdgeR] := by
      norm_num [extractEdges, buildEdgeMap, numTris, degTriMeshR, degTriEdgeR,
        triKeys, triNormal, computeNormal, getVertex, triIdx, edgeKey,
        insertEntry, dot3, cross3, sub3, realOps, List.range_succ,
        Real.sqrt_zero, min_def, max_def]
    rw [h]
    exact List.mem_singleton.2 rfl
  have h := extractEdges_dihedralAngle_bounds degTriMeshR degTriEdgeR hmem
  exact ⟨h.2.2.2.1, h.2.2.2.2⟩

/-- The subset of the external Manifold CSG kernel contract (spec section 6)
used by the fillet orchestrator and the tube builder, abstracted as
uninterpreted operations over an abstract solid type `σ` (the kernel itself
is an external collaborator, out of the core's scope). -/
structure Kernel (α : Type) (σ : Type) where
  getMesh : σ → Mesh α
  sphere : α → Option Nat → σ
  translate : σ → Vec3 α → σ
  hull : List σ → σ
  hullPoints : List (Vec3 α) → σ
  subtract : σ → σ → σ
  union : List σ → σ
  volume : σ → α

/-- The `FilletOptions` record of `src/fillet.ts`: radius, edge selection
criterion and optional segment count (default 16). -/
structure FilletOptions (α : Type) where
  radius : α
  selection : EdgeSelection α
  segments : Option Nat

/-- The `createFilletCuttingTool` function of `src/fillet.ts`: reject edges
shorter than `1e-9`; build the inward tube as the hull of two spheres offset
by `radius` along both face normals and extended by `radius * 0.1` along the
edge; build the wedge as the hull of six points offset inward by the wedge
depth `radius * 1.1`; return `wedge - tube`.  The componentwise coordinate
arithmetic of the source is written with the `Vec3` helpers. -/
def createFilletCuttingTool {α σ : Type} [LinearOrderedField α]
    (K : Kernel α σ) (ops : RealOps α) (edge : MeshEdge α) (radius : α)
    (segments : Nat) : Option σ :=
  let ev := sub3 edge.p1 edge.p0
  let edgeLen := ops.sqrt (dot3 ev ev)
  if edgeLen < 1 / 10 ^ 9 then none
  else
    let edgeDir : Vec3 α := (ev.1 / edgeLen, ev.2.1 / edgeLen, ev.2.2 / edgeLen)
    let ext := radius * (1 / 10)
    let offset := add3 (smul3 radius edge.n0) (smul3 radius edge.n1)
    let tubeStart := sub3 (sub3 edge.p0 offset) (smul3 ext edgeDir)
    let tubeEnd := add3 (sub3 edge.p1 offset) (smul3 ext edgeDir)
    let sphere0 := K.translate (K.sphere radius (some segments)) tubeStart
    let sphere1 := K.translate (K.sphere radius (some segments)) tubeEnd
    let tube := K.hull [sphere0, sphere1]
    let wedgeDepth := radius * (11 / 10)
    let sStart := sub3 edge.p0 (smul3 ext edgeDir)
    let sEnd := add3 edge.p1 (smul3 ext edgeDir)
    let wedgePoints : List (Vec3 α) :=
      [sStart,
       sub3 sStart (smul3 wedgeDepth edge.n0),
       sub3 sStart (smul3 wedgeDepth edge.n1),
       sEnd,
       sub3 sEnd (smul3 wedgeDepth edge.n0),
       sub3 sEnd (smul3 wedgeDepth edge.n1)]
    let wedge := K.hullPoints wedgePoints
    some (K.subtract wedge tube)

/-- The tool-collection loop of `filletWithManifold` (`src/fillet.ts` lines
69-80): process only edges with dihedral angle strictly between 5 and 175
degrees, build the cutting tool, and keep it only when its volume exceeds
`1e-9`. -/
def collectCuttingTools {α σ : Type} [LinearOrderedField α] (K : Kernel α σ)
    (ops : RealOps α) (radius : α) (segments : Nat)
    (edges : List (MeshEdge α)) : List σ :=
  edges.filterMap fun edge =>
    if 5 < edge.dihedralAngle ∧ edge.dihedralAngle < 175 then
      match createFilletCuttingTool K ops edge radius segments with
      | some tool =>
          if 1 / 10 ^ 9 < K.volume tool then some tool else none
      | none => none
    else none

/-- The `filletWithManifold` orchestrator of `src/fillet.ts`: reject a
non-positive radius with an error; return the input unchanged when no edges
are extracted or selected; otherwise subtract the collected cutting tools
sequentially from the working solid. -/
def filletWithManifold {α σ : Type} [LinearOrderedField α] (K : Kernel α σ)
    (ops : RealOps α) (mf : σ) (options : FilletOptions α) :
    Except String σ :=
  let radius := options.radius
  let segments := options.segments.getD 16
  if radius ≤ 0 then Except.error "Fillet radius must be positive"
  else
    let allEdges := extractEdges ops (K.getMesh mf)
    if allEdges.length = 0 then Except.ok mf
    else
      let selectedEdges := selectEdges allEdges options.selection
      if selectedEdges.length = 0 then Except.ok mf
      else
        let cuttingTools := collectCuttingTools K ops radius segments
          selectedEdges
        Except.ok (cuttingTools.foldl K.subtract mf)

/-- C5: every tool in the subtraction sequence of the orchestrator (the
`cuttingTools` list, subtracted sequentially by `filletWithManifold`) has
volume strictly above `1e-9` — so a tool with volume below `1e-9` is never
subtracted — and was built by `createFilletCuttingTool` from a selected edge
whose dihedral angle lies strictly between 5 and 175 degrees. -/
theorem collectCuttingTools_sound {α σ : Type} [LinearOrderedField α]
    (K : Kernel α σ) (ops : RealOps α) (radius : α) (segments : Nat)
    (edges : List (MeshEdge α)) :
    ∀ t ∈ collectCuttingTools K ops radius segments edges,
      1 / 10 ^ 9 < K.volume t ∧
      ∃ e ∈ edges, 5 < e.dihedralAngle ∧ e.dihedralAngle < 175 ∧
        createFilletCuttingTool K ops e radius segments = some t := by
  intro t ht
  unfold collectCuttingTools at ht
  obtain ⟨e, he, hf⟩ := List.mem_filterMap.1 ht
  by_cases hang : 5 < e.dihedralAngle ∧ e.dihedralAngle < 175
  · rw [if_pos hang] at hf
    cases hcr : createFilletCuttingTool K ops e radius segments with
    | none => rw [hcr] at hf; cases hf
    | some tool =>
        rw [hcr] at hf
        have hf' : (if 1 / 10 ^ 9 < K.volume tool then some tool else none)
            = some t := hf
        by_cases hv : 1 / 10 ^ 9 < K.volume tool
        · rw [if_pos hv] at hf'
          obtain rfl : tool = t := Option.some.inj hf'
          exact ⟨hv, e, he, hang.1, hang.2, hcr⟩
        · rw [if_neg hv] at hf'; cases hf'
  · rw [if_neg hang] at hf; cases hf

/-- Trivial rational kernel over the one-point solid type, reporting volume
`1` for every solid; used to instantiate control-flow facts. -/
def unitKernel : Kernel ℚ Unit :=
  { getMesh := fun _ => { triVerts := [], vertProperties := [], numProp := 0 },
    sphere := fun _ _ => (), translate := fun _ _ => (), hull := fun _ => (),
    hullPoints := fun _ => (), subtract := fun _ _ => (),
    union := fun _ => (), volume := fun _ => 1 }

/-- Concrete unit-length edge with dihedral angle 90, processed by the
orchestrator's angle filter. -/
def toolEdge : MeshEdge ℚ :=
  { v0 := 0, v1 := 1, p0 := (0, 0, 0), p1 := (1, 0, 0), n0 := (0, 0, 1),
    n1 := (0, 1, 0), dihedralAngle := 90 }

/-- C5 witness: the concrete tool collected for the angle-90 edge has
volume above the degeneracy threshold. -/
theorem collectCuttingTools_sound_witness :
    (1 : ℚ) / 10 ^ 9 < unitKernel.volume () := by
  have hmem : () ∈ collectCuttingTools unitKernel ratOps 1 16 [toolEdge] := by
    norm_num [collectCuttingTools, createFilletCuttingTool, toolEdge,
      unitKernel, ratOps, dot3, sub3, add3, smul3]
  exact (collectCuttingTools_sound unitKernel ratOps 1 16 [toolEdge] ()
    hmem).1

/-- C6: a non-positive fillet radius makes `filletWithManifold` fail
immediately with the invalid-parameter error, for every kernel and every
input solid — in particular no edge extraction, selection, tool construction
or subtraction influences the result, and the (immutable) input solid is
untouched. -/
theorem filletWithManifold_invalid_radius {α σ : Type} [LinearOrderedField α]
    (K : Kernel α σ) (ops : RealOps α) (mf : σ) (options : FilletOptions α)
    (h : options.radius ≤ 0) :
    filletWithManifold K ops mf options
      = Except.error "Fillet radius must be positive" := by
  unfold filletWithManifold
  rw [if_pos h]

/-- C6 witness: radius 0 on the trivial kernel yields the
invalid-parameter error. -/
theorem filletWithManifold_invalid_radius_witness :
    filletWithManifold unitKernel ratOps ()
        { radius := 0, selection := .angle 80, segments := none }
      = Except.error "Fillet radius must be positive" :=
  filletWithManifold_invalid_radius unitKernel ratOps ()
    { radius := 0, selection := .angle 80, segments := none } (by norm_num)

/-- C7: with a positive radius, if edge extraction yields no edges or the
selection yields no edges, `filletWithManifold` returns the input solid
unchanged inside `Except.ok`, and no error is raised. -/
theorem filletWithManifold_no_edges {α σ : Type} [LinearOrderedField α]
    (K : Kernel α σ) (ops : RealOps α) (mf : σ) (options : FilletOptions α)
    (hr : 0 < options.radius)
    (h : extractEdges ops (K.getMesh mf) = [] ∨
      selectEdges (extractEdges ops (K.getMesh mf)) options.selection = []) :
    filletWithManifold K ops mf options = Except.ok mf := by
  unfold filletWithManifold
  rw [if_neg (not_le.mpr hr)]
  rcases h with h0 | h1
  · simp [h0]
  · by_cases he : extractEdges ops (K.getMesh mf) = []
    · simp [he]
    · rw [if_neg (by simpa [List.length_eq_zero] using he),
        if_pos (by simp [h1])]

/-- C7 witness: the trivial kernel's mesh has no triangles, so a radius-1
fillet returns the input solid unchanged. -/
theorem filletWithManifold_no_edges_witness :
    filletWithManifold unitKernel ratOps ()
        { radius := 1, selection := .angle 80, segments := none }
      = Except.ok () := by
  apply filletWithManifold_no_edges unitKernel ratOps ()
    { radius := 1, selection := .angle 80, segments := none } (by norm_num)
  exact Or.inl (by norm_num [extractEdges, buildEdgeMap, numTris, unitKernel])

/-- The `normalize` helper of `src/pipeAlongPath.ts`: unit vector, falling
back to `[1,0,0]` for near-zero input. -/
def normalize3 {α : Type} [LinearOrderedField α] (ops : RealOps α)
    (v : Vec3 α) : Vec3 α :=
  let len := ops.sqrt (dot3 v v)
  if len < 1 / 10 ^ 12 then (1, 0, 0)
  else (v.1 / len, v.2.1 / len, v.2.2 / len)

/-- The successful body of `pipeAlongPath`: spheres at every path point,
tube segments as hulls of consecutive sphere pairs, unioned (a single
segment is returned directly). -/
def pipeBody {α σ : Type} [LinearOrderedField α] (K : Kernel α σ)
    (path : List (Vec3 α)) (radius : α) (segments : Option Nat) : σ :=
  let spheres := path.map fun p => K.translate (K.sphere radius segments) p
  let segs := List.zipWith (fun a b => K.hull [a, b]) spheres spheres.tail
  match segs with
  | [s] => s
  | _ => K.union segs

/-- The `pipeAlongPath` function of `src/pipeAlongPath.ts`: fails on a path
with fewer than 2 points, otherwise builds the sphere-hull tube. -/
def pipeAlongPath {α σ : Type} [LinearOrderedField α] (K : Kernel α σ)
    (path : List (Vec3 α)) (radius : α) (segments : Option Nat) :
    Except String σ :=
  if path.length < 2 then Except.error "Path must have at least 2 points"
  else Except.ok (pipeBody K path radius segments)

/-- The extended path built by `pipeAlongPathExtended`: one extra point
before the first and after the last, displaced by
`radius * extensionFactor` along the reversed local tangent. -/
def extendedPathOf {α : Type} [LinearOrderedField α] (ops : RealOps α)
    (path : List (Vec3 α)) (radius extensionFactor : α) : List (Vec3 α) :=
  let start := path.getD 0 (0, 0, 0)
  let afterStart := path.getD 1 (0, 0, 0)
  let startDir := normalize3 ops (sub3 start afterStart)
  let pEnd := path.getD (path.length - 1) (0, 0, 0)
  let beforeEnd := path.getD (path.length - 2) (0, 0, 0)
  let endDir := normalize3 ops (sub3 pEnd beforeEnd)
  let ext := radius * extensionFactor
  [add3 start (smul3 ext startDir)] ++ path ++ [add3 pEnd (smul3 ext endDir)]

/-- The `pipeAlongPathExtended` function of `src/pipeAlongPath.ts`
(`extensionFactor` defaults to `0.1` at the call sites): fails on a path
with fewer than 2 points, otherwise pipes along the extended path. -/
def pipeAlongPathExtended {α σ : Type} [LinearOrderedField α]
    (K : Kernel α σ) (ops : RealOps α) (path : List (Vec3 α))
    (radius extensionFactor : α) (segments : Option Nat) :
    Except String σ :=
  if path.length < 2 then Except.error "Path must have at least 2 points"
  else pipeAlongPath K (extendedPathOf ops path radius extensionFactor)
    radius segments

theorem length_extendedPathOf {α : Type} [LinearOrderedField α]
    (ops : RealOps α) (path : List (Vec3 α)) (radius extensionFactor : α) :
    (extendedPathOf ops path radius extensionFactor).length
      = path.length + 2 := by
  simp [extendedPathOf]

/-- C8: `pipeAlongPath` and `pipeAlongPathExtended` fail with the
invalid-input error exactly when the path has fewer than 2 points; with 2 or
more points they succeed, returning the union of the hulls of consecutive
spheres along the path (respectively along the extended path). -/
theorem pipeAlongPath_spec {α σ : Type} [LinearOrderedField α]
    (K : Kernel α σ) (ops : RealOps α) (path : List (Vec3 α))
    (radius extensionFactor : α) (segments : Option Nat) :
    ((pipeAlongPath K path radius segments
        = Except.error "Path must have at least 2 points")
      ↔ path.length < 2) ∧
    ((pipeAlongPathExtended K ops path radius extensionFactor segments
        = Except.error "Path must have at least 2 points")
      ↔ path.length < 2) ∧
    (2 ≤ path.length →
      pipeAlongPath K path radius segments
          = Except.ok (pipeBody K path radius segments) ∧
      pipeAlongPathExtended K ops path radius extensionFactor segments
          = Except.ok (pipeBody K
              (extendedPathOf ops path radius extensionFactor) radius
              segments)) := by
  refine ⟨?_, ?_, ?_⟩
  · constructor
    · intro h
      by_contra hlen
      unfold pipeAlongPath at h
      rw [if_neg hlen] at h
      cases h
    · intro hlen
      unfold pipeAlongPath
      rw [if_pos hlen]
  · constructor
    · intro h
      by_contra hlen
      unfold pipeAlongPathExtended pipeAlongPath at h
      rw [if_neg hlen,
        if_neg (by rw [length_extendedPathOf]; omega)] at h
      cases h
    · intro hlen
      unfold pipeAlongPathExtended
      rw [if_pos hlen]
  · intro hlen
    have hnot : ¬ path.length < 2 := by omega
    constructor
    · unfold pipeAlongPath
      rw [if_neg hnot]
    · unfold pipeAlongPathExtended pipeAlongPath
      rw [if_neg hnot, if_neg (by rw [length_extendedPathOf]; omega)]

/-- C8 witness: the concrete two-point path succeeds and returns the tube
body. -/
theorem pipeAlongPath_spec_witness :
    pipeAlongPath unitKernel [((0 : ℚ), 0, 0), (10, 0, 0)] 1 none
      = Except.ok (pipeBody unitKernel [((0 : ℚ), 0, 0), (10, 0, 0)] 1
          none) :=
  ((pipeAlongPath_spec unitKernel ratOps [((0 : ℚ), 0, 0), (10, 0, 0)] 1
    (1 / 10) none).2.2 (by norm_num)).1
